import Mathlib

/-!
Shallow embedding of the DradisMD synchronization engine (`dradismd.py`).

Python strings are modelled as `List Char`; fallible Python code returns
`Except PyErr`; the remote Dradis API is an oracle environment `ApiEnv`
(what the remote side would answer) and every API invocation is recorded
in the session's call trace, so that theorems can speak about which remote
calls an export performs.
-/

/-- Python exceptions the embedded code can raise.
`attributeError` models `None.group(...)`, `typeError` models `None[...]`,
`apiError` models an exception raised inside the Dradis API wrapper. -/
inductive PyErr where
  | attributeError
  | typeError
  | apiError
deriving DecidableEq

/-- Equality of `Except` results is decidable (used to evaluate the embedding
at concrete inputs). -/
instance {e a : Type} [DecidableEq e] [DecidableEq a] : DecidableEq (Except e a) := fun x y =>
  match x, y with
  | Except.ok u, Except.ok v =>
    if h : u = v then isTrue (by rw [h]) else isFalse (by intro hc; cases hc; exact h rfl)
  | Except.error u, Except.error v =>
    if h : u = v then isTrue (by rw [h]) else isFalse (by intro hc; cases hc; exact h rfl)
  | Except.ok _, Except.error _ => isFalse (by intro hc; cases hc)
  | Except.error _, Except.ok _ => isFalse (by intro hc; cases hc)

/-- Characters of a string literal (Python `str` is modelled as `List Char`). -/
def str (s : String) : List Char := s.data

/-- Whether a character is one of the `[\r\n]` class of the field regexes. -/
def isNl (c : Char) : Bool := c == '\n' || c == '\r'

/-- Match `p` against the front of `l`; on success return the rest of `l`. -/
def stripPref : List Char → List Char → Option (List Char)
  | [], l => some l
  | _ :: _, [] => none
  | p :: ps, c :: cs => if p = c then stripPref ps cs else none

theorem stripPref_self_append (p r : List Char) : stripPref p (p ++ r) = some r := by
  induction p with
  | nil => rfl
  | cons a ps ih => simp [stripPref, ih]

theorem stripPref_eq_some : ∀ {p l r : List Char}, stripPref p l = some r → l = p ++ r := by
  intro p
  induction p with
  | nil =>
    intro l r h
    simp [stripPref] at h
    simp [h]
  | cons a ps ih =>
    intro l r h
    cases l with
    | nil => simp [stripPref] at h
    | cons c cs =>
      simp only [stripPref] at h
      by_cases hac : a = c
      · simp only [hac, if_pos rfl] at h
        simpa [hac] using congrArg (c :: ·) (ih h)
      · simp [hac] at h

theorem stripPref_length {p l r : List Char} (h : stripPref p l = some r) :
    r.length ≤ l.length := by
  have := stripPref_eq_some h
  subst this
  simp

/-- A pattern with no `'\n'` cannot begin inside `l` and reach past a `'\n'`
separator: if it matches at the very front of `l ++ '\n' :: r`, it matches at
the front of `l` alone. -/
theorem stripPref_isSome_of_append_nl {p : List Char} (hp : p.contains '\n' = false) :
    ∀ {l r : List Char}, (stripPref p (l ++ '\n' :: r)).isSome = true →
      (stripPref p l).isSome = true := by
  induction p with
  | nil => intro l r _; simp [stripPref]
  | cons a ps ih =>
    intro l r h
    have hp' : ps.contains '\n' = false := by
      simp only [List.contains_cons, Bool.or_eq_false_iff] at hp
      exact hp.2
    have ha : ¬ a = '\n' := by
      simp only [List.contains_cons, Bool.or_eq_false_iff] at hp
      intro hne
      simp [hne] at hp
    cases l with
    | nil =>
      simp only [List.nil_append, stripPref] at h
      simp [ha] at h
    | cons c cs =>
      simp only [List.cons_append, stripPref] at h ⊢
      by_cases hac : a = c
      · simp only [hac, if_true, eq_self_iff_true] at h ⊢
        exact ih hp' h
      · simp [hac] at h

/-- Does `pat` occur as a contiguous run of characters inside `l`?  Used to
state that a regex marker does not occur in some content. -/
def occursIn (pat : List Char) : List Char → Bool
  | [] => pat.isEmpty
  | c :: cs => (stripPref pat (c :: cs)).isSome || occursIn pat cs

/-- A `'\n'`-free pattern occurring in `a ++ '\n' :: b` occurs in `a` or in `b`:
an occurrence cannot straddle the separator. -/
theorem occursIn_append_nl {t : List Char} (hnl : t.contains '\n' = false) :
    ∀ {a b : List Char}, occursIn t (a ++ '\n' :: b) = true →
      occursIn t a = true ∨ occursIn t b = true := by
  intro a
  induction a with
  | nil =>
    intro b h
    simp only [List.nil_append, occursIn, Bool.or_eq_true] at h
    rcases h with h | h
    · cases t with
      | nil => left; simp [occursIn]
      | cons x ts =>
        have hx : ¬ x = '\n' := by
          simp only [List.contains_cons, Bool.or_eq_false_iff] at hnl
          intro hne; simp [hne] at hnl
        simp [stripPref, hx] at h
    · right; exact h
  | cons x xs ih =>
    intro b h
    simp only [List.cons_append, occursIn, Bool.or_eq_true] at h
    rcases h with h | h
    · left
      have hx : (stripPref t (x :: xs)).isSome = true :=
        stripPref_isSome_of_append_nl hnl (l := x :: xs) (r := b) h
      simp [occursIn, hx]
    · rcases ih h with h1 | h1
      · left; simp [occursIn, h1]
      · right; exact h1

theorem occursIn_nil {t : List Char} (ht : t ≠ []) : occursIn t [] = false := by
  cases t with
  | nil => exact absurd rfl ht
  | cons a ts => simp [occursIn, List.isEmpty]

/-! ### The `#[Field]#` regexes

`TITLE_REGEX = "#\[Title]#+[\r\n]+([^\r\n]+)"` and
`EVIDENCE_ID_REGEX = "#\[EvidenceID]#+[\r\n]+([^\r\n]+)"`.
All character classes involved are pairwise disjoint, so the regex matches
deterministically: the literal `#[Name]`, then a maximal non-empty run of
`'#'`, then a maximal non-empty run of newline characters, then the maximal
non-empty run of non-newline characters, which is the captured group. -/

/-- The literal part `#[Name]` of a field regex. -/
def fieldLit (name : List Char) : List Char := '#' :: '[' :: (name ++ [']'])

/-- Match the field regex at the start of `l`; on success return the captured
group and the rest of the input after the match. -/
def matchFieldAt (name : List Char) (l : List Char) : Option (List Char × List Char) :=
  match stripPref (fieldLit name) l with
  | none => none
  | some r1 =>
    let hashes := r1.takeWhile (fun c => c == '#')
    if hashes.isEmpty then none
    else
      let r2 := r1.dropWhile (fun c => c == '#')
      let nls := r2.takeWhile isNl
      if nls.isEmpty then none
      else
        let r3 := r2.dropWhile isNl
        let grp := r3.takeWhile (fun c => !(isNl c))
        if grp.isEmpty then none
        else some (grp, r3.dropWhile (fun c => !(isNl c)))

theorem matchFieldAt_rest_length {name l g rest : List Char}
    (h : matchFieldAt name l = some (g, rest)) : rest.length < l.length := by
  unfold matchFieldAt at h
  cases hs : stripPref (fieldLit name) l with
  | none => rw [hs] at h; exact absurd h (by simp)
  | some r1 =>
    rw [hs] at h
    have hl : l = fieldLit name ++ r1 := stripPref_eq_some hs
    have h1 : r1.length < l.length := by
      rw [hl]
      simp [fieldLit]
      omega
    have h2 : rest.length ≤ r1.length := by
      by_cases e1 : (r1.takeWhile (fun c => c == '#')).isEmpty
      · simp [e1] at h
      · by_cases e2 : ((r1.dropWhile (fun c => c == '#')).takeWhile isNl).isEmpty
        · simp [e1, e2] at h
        · by_cases e3 : (((r1.dropWhile (fun c => c == '#')).dropWhile isNl).takeWhile
              (fun c => !(isNl c))).isEmpty
          · simp [e1, e2, e3] at h
          · simp only [e1, e2, e3, if_false, Bool.false_eq_true, if_neg, Option.some.injEq,
              Prod.mk.injEq] at h
            have := h.2
            subst this
            calc (((r1.dropWhile (fun c => c == '#')).dropWhile isNl).dropWhile
                    (fun c => !(isNl c))).length
                ≤ ((r1.dropWhile (fun c => c == '#')).dropWhile isNl).length :=
                  (List.dropWhile_sublist _).length_le
              _ ≤ (r1.dropWhile (fun c => c == '#')).length :=
                  (List.dropWhile_sublist _).length_le
              _ ≤ r1.length := (List.dropWhile_sublist _).length_le
    omega

theorem matchFieldAt_eq_none_of_strip {name l : List Char}
    (h : stripPref (fieldLit name) l = none) : matchFieldAt name l = none := by
  unfold matchFieldAt
  rw [h]

/-- `re.search(FIELD_REGEX, content)`: the captured group of the leftmost
match, scanning positions left to right. -/
def fieldSearch (name : List Char) : List Char → Option (List Char)
  | [] => none
  | c :: cs =>
    match matchFieldAt name (c :: cs) with
    | some (g, _) => some g
    | none => fieldSearch name cs

/-- `re.sub(FIELD_REGEX, "", content)`: remove every non-overlapping match,
scanning left to right and continuing after each match. -/
def fieldSub (name : List Char) : List Char → List Char
  | [] => []
  | c :: cs =>
    match h : matchFieldAt name (c :: cs) with
    | some (_, rest) => fieldSub name rest
    | none => c :: fieldSub name cs
termination_by l => l.length
decreasing_by
  · exact matchFieldAt_rest_length h
  · simp

/-! ### `get_title` and name sanitisation -/

/-- `get_title(content)`:
```
match = re.search(TITLE_REGEX, content)
title = match.group(1)
if not match or title.startswith("#["):
    return ""
else:
    return title
```
`match.group(1)` is evaluated before the `not match` test, so when the regex
finds no match (`match is None`) the call raises `AttributeError` instead of
returning the empty string promised by the docstring. -/
def get_title (content : List Char) : Except PyErr (List Char) :=
  match fieldSearch (str "Title") content with
  | none => Except.error PyErr.attributeError
  | some title =>
    if (stripPref (str "#[") title).isSome then Except.ok [] else Except.ok title

/-- `str.lower()` (ASCII case folding suffices for the titles involved). -/
def pyLower (l : List Char) : List Char := l.map Char.toLower

/-- The characters removed by `clean_filename`: `'<>:]"/\\|?*.'`. -/
def BAD_FILENAME_CHARS : List Char := str "<>:]\"/\\|?*."

/-- One round of `filename.replace(char, "")`. -/
def pyRemoveChar (l : List Char) (c : Char) : List Char := l.filter (fun x => x != c)

/-- `clean_filename(filename)`: successively remove each illegal character. -/
def clean_filename (filename : List Char) : List Char :=
  BAD_FILENAME_CHARS.foldl pyRemoveChar filename

/-- `get_item_from_dict_list(dict_list, key_to_check, matching_string)`:
first element whose (sanitised, lowercased) key equals the (sanitised,
lowercased) search string — `next((d for d in dict_list if ...), None)`. -/
def get_item_from_dict_list {α : Type} (dict_list : List α) (key : α → List Char)
    (matching_string : List Char) : Option α :=
  dict_list.find?
    (fun d => pyLower (clean_filename (key d)) == pyLower (clean_filename matching_string))

/-! ### Data model: remote records, API calls, oracle environment, session -/

/-- A remote issue record (the fields reconciliation reads). -/
structure Issue where
  id : Int
  title : List Char
deriving DecidableEq

/-- A remote node record. -/
structure Node where
  id : Int
  label : List Char
deriving DecidableEq

/-- One invocation of the Dradis API wrapper, as recorded in the trace. -/
inductive ApiCall where
  | getAllIssues
  | getAllNodes
  | getAllAttachments (node_id : List Char)
  | createAttachment (node_id : List Char) (files : List (List Char))
  | createIssue (content : List Char)
  | updateIssue (issue_id : Int) (content : List Char)
  | createEvidence (node_id : List Char) (issue_id : Int) (content : List Char)
  | updateEvidence (node_id : List Char) (issue_id : Int) (evidence_id : List Char)
      (content : List Char)
  | updateDocprop (key value : List Char)
deriving DecidableEq

def isGetAllIssuesCall : ApiCall → Bool
  | ApiCall.getAllIssues => true
  | _ => false

def isGetAllNodesCall : ApiCall → Bool
  | ApiCall.getAllNodes => true
  | _ => false

def isCreateEvidenceCall : ApiCall → Bool
  | ApiCall.createEvidence _ _ _ => true
  | _ => false

/-- Oracle for the remote side: what each API operation would answer.
`Except.error ()` means the wrapper raises on that call. -/
structure ApiEnv where
  issues : List Issue
  nodes : List Node
  attachments : List Char → List (List Char)
  onDisk : List Char → Bool
  createIssueRes : List Char → Except Unit Int
  updateIssueRes : Int → List Char → Except Unit Unit
  createEvidenceRes : Except Unit (List Char)
  updateEvidenceRes : List Char → Except Unit Unit
  updateDocpropRes : List Char → List Char → Except Unit Unit

/-- Mutable state of one `DradisMD` object plus the world it touches:
the two per-session caches (`self.issue_list`, `self.dradis_nodes`, both
initialised to the falsy `{}`, modelled by `[]`), the content of the local
file being exported, and the trace of API calls made so far. -/
structure Session where
  issue_list : List Issue
  dradis_nodes : List Node
  fileContent : List Char
  trace : List ApiCall
deriving DecidableEq

/-- A fresh `DradisMD` session (one process invocation) over a local file. -/
def freshSession (fileContent : List Char) : Session :=
  { issue_list := [], dradis_nodes := [], fileContent := fileContent, trace := [] }

/-- `if not self.issue_list: self.issue_list = self.api.get_all_issues(project_id)`
followed by use of `self.issue_list`.  An empty cache is falsy, so an empty
fetched list is fetched again by the next operation. -/
def fetchIssues (env : ApiEnv) (s : Session) : Session × List Issue :=
  if s.issue_list.isEmpty then
    ({ s with issue_list := env.issues, trace := s.trace ++ [ApiCall.getAllIssues] },
      env.issues)
  else (s, s.issue_list)

/-- `if not self.dradis_nodes: self.dradis_nodes = self.api.get_all_nodes(project_id)`. -/
def fetchNodes (env : ApiEnv) (s : Session) : Session × List Node :=
  if s.dradis_nodes.isEmpty then
    ({ s with dradis_nodes := env.nodes, trace := s.trace ++ [ApiCall.getAllNodes] },
      env.nodes)
  else (s, s.dradis_nodes)

/-! ### `handle_attachments`

The attachment regex is `!(?P<path>.*?)(?P<caption>\(.*?)?!`.  Since `.`
does not match `'\n'`, a match starting at a `'!'` extends to the first
later `'!'` on the same line (no match if a `'\n'` comes first), and the
optional caption group starts at the first `'('` of that segment (the lazy
path prefers the shortest prefix, and the greedy `?` prefers the caption
present); `finditer` resumes scanning after each match. -/

/-- One attachment reference found in the content (`m.groupdict()`). -/
structure AttachMatch where
  matched : List Char
  path : List Char
  caption : Option (List Char)
deriving DecidableEq

/-- Scan forward from just after an opening `'!'`: return the segment up to
the closing `'!'` and the rest after it, or `none` if a `'\n'` or the end of
input comes first. -/
def takeToBang : List Char → Option (List Char × List Char)
  | [] => none
  | c :: cs =>
    if c = '!' then some ([], cs)
    else if c = '\n' then none
    else
      match takeToBang cs with
      | none => none
      | some (seg, rest) => some (c :: seg, rest)

theorem takeToBang_length :
    ∀ {l seg rest : List Char}, takeToBang l = some (seg, rest) → rest.length < l.length := by
  intro l
  induction l with
  | nil => intro seg rest h; simp [takeToBang] at h
  | cons c cs ih =>
    intro seg rest h
    simp only [takeToBang] at h
    by_cases hc : c = '!'
    · simp only [hc, if_pos rfl] at h
      cases h
      simp
    · simp only [hc, if_false, Bool.false_eq_true, if_neg] at h
      by_cases hn : c = '\n'
      · simp [hn] at h
      · simp only [hn, if_false, Bool.false_eq_true, if_neg] at h
        cases ht : takeToBang cs with
        | none => rw [ht] at h; exact absurd h (by simp)
        | some p =>
          rw [ht] at h
          cases p with
          | mk seg0 rest0 =>
            simp only [Option.some.injEq, Prod.mk.injEq] at h
            have hlen := ih ht
            have hr : rest = rest0 := h.2.symm ▸ rfl
            subst hr
            simp
            omega

/-- Build the `groupdict` of one match from its inner segment: the caption
group starts at the first `'('` of the segment, if any. -/
def mkAttach (seg : List Char) : AttachMatch :=
  if seg.contains '(' then
    { matched := '!' :: (seg ++ ['!'])
      path := seg.takeWhile (fun c => c != '(')
      caption := some (seg.dropWhile (fun c => c != '(')) }
  else
    { matched := '!' :: (seg ++ ['!']), path := seg, caption := none }

/-- `re.finditer` over the content for the attachment regex. -/
def parseAttachAux : List Char → List AttachMatch
  | [] => []
  | c :: cs =>
    if c = '!' then
      match h : takeToBang cs with
      | some (seg, rest) => mkAttach seg :: parseAttachAux rest
      | none => parseAttachAux cs
    else parseAttachAux cs
termination_by l => l.length
decreasing_by
  · have := takeToBang_length h
    simp
    omega
  · simp
  · simp

/-- `Path(p).name`: the last `'/'`-separated component of a path string. -/
def pathName (l : List Char) : List Char :=
  l.foldl (fun acc c => if c = '/' then [] else acc ++ [c]) []

/-- `s.replace(pat, repl)` / `re.sub(re.escape(pat), repl, s)` for a literal
non-empty pattern: replace every non-overlapping occurrence, left to right.
(The embedded code never calls this with an empty pattern.) -/
def pyReplace (pat repl : List Char) : List Char → List Char
  | [] => []
  | c :: cs =>
    match pat with
    | [] => c :: cs
    | p :: ps =>
      if c = p then
        match h : stripPref ps cs with
        | some rest => repl ++ pyReplace pat repl rest
        | none => c :: pyReplace pat repl cs
      else c :: pyReplace pat repl cs
termination_by l => l.length
decreasing_by
  · have := stripPref_length h
    simp
    omega
  · simp
  · simp

/-- `attachment_path.name.replace("%20", " ")` and
`attachment_path.as_posix().replace("%20", " ")`. -/
def decodeSpaces (l : List Char) : List Char := pyReplace (str "%20") (str " ") l

/-- The rewritten in-content reference
`f"!{dradis_dir}/{attachment_path.name}{caption}!"` with
`dradis_dir = f"/pro/projects/{project_id}/nodes/{node_id}/attachments"`. -/
def canonicalRef (project_id node_id : List Char) (a : AttachMatch) : List Char :=
  '!' :: (str "/pro/projects/" ++ project_id ++ str "/nodes/" ++ node_id
    ++ str "/attachments/" ++ pathName a.path ++ (a.caption.getD []) ++ ['!'])

/-- `Path.resolve(Path.joinpath(file_path, attachment_path...))`, used only as
a key into the on-disk oracle. -/
def fullAttachmentPath (fileParent : List Char) (a : AttachMatch) : List Char :=
  fileParent ++ '/' :: decodeSpaces a.path

/-- The `for attachment in attachments:` loop of `handle_attachments`,
accumulating the upload queue `files`, the log-only list `already_existed`,
and the successive rewrites of `content`. -/
def attachLoop (env : ApiEnv) (project_id node_id : List Char)
    (existing : List (List Char)) (fileParent : List Char) :
    List AttachMatch → List (List Char) → List (List Char) → List Char →
      List (List Char) × List (List Char) × List Char
  | [], files, already, content => (files, already, content)
  | a :: rest, files, already, content =>
    let name := pathName a.path
    if !(existing.any (fun d => d == decodeSpaces name)) then
      let full := fullAttachmentPath fileParent a
      if !(env.onDisk full) then
        -- file missing on disk: warn and `continue` (no queue, no rewrite)
        attachLoop env project_id node_id existing fileParent rest files already content
      else
        attachLoop env project_id node_id existing fileParent rest (files ++ [full]) already
          (pyReplace a.matched (canonicalRef project_id node_id a) content)
    else
      attachLoop env project_id node_id existing fileParent rest files (already ++ [name])
        (pyReplace a.matched (canonicalRef project_id node_id a) content)

/-- `handle_attachments(project_id, node_id, content, file_path)`. -/
def handle_attachments (env : ApiEnv) (s : Session) (project_id node_id : List Char)
    (content : List Char) (fileParent : List Char) : Session × List Char :=
  let existing := env.attachments node_id
  let s := { s with trace := s.trace ++ [ApiCall.getAllAttachments node_id] }
  let attachments := parseAttachAux content
  if attachments.isEmpty then (s, content)
  else
    let r := attachLoop env project_id node_id existing fileParent attachments [] [] content
    let s :=
      if r.1.isEmpty then s
      else { s with trace := s.trace ++ [ApiCall.createAttachment node_id r.1] }
    (s, r.2.2)

/-! ### Export operations (the `EntityReconciler`) -/

/-- `new_evidence(project_id, node_id, issue_id, dradis_evidence_content,
evidence, erase_previous_id)`: create the evidence remotely, then rewrite the
local file to its raw content (with the old `#[EvidenceID]#` field stripped
when `erase_previous_id`) followed by the appended field block. -/
def new_evidence (env : ApiEnv) (s : Session) (node_id : List Char) (issue_id : Int)
    (dradis_evidence_content : List Char) (erase_previous_id : Bool) :
    Session × Except PyErr Unit :=
  let s := { s with
    trace := s.trace ++ [ApiCall.createEvidence node_id issue_id dradis_evidence_content] }
  match env.createEvidenceRes with
  | Except.error _ => (s, Except.error PyErr.apiError)
  | Except.ok evidence_id =>
    let evidence_content := s.fileContent
    let evidence_content :=
      if erase_previous_id then fieldSub (str "EvidenceID") evidence_content
      else evidence_content
    ({ s with fileContent :=
        evidence_content ++ str "\n#[EvidenceID]#\n\n" ++ evidence_id ++ str "\n" },
      Except.ok ())

/-- `export_evidence(project_id, node_id, local_issue_name, evidence_file)`.
`content` plays the role of `get_textile_content(evidence_file)`, which for a
`.textile` file is the file's own content. -/
def export_evidence (env : ApiEnv) (s : Session) (project_id node_id : List Char)
    (local_issue_name : List Char) (fileParent : List Char) : Session × Except PyErr Unit :=
  let dradis_evidence_content := s.fileContent
  if dradis_evidence_content.isEmpty then (s, Except.ok ())
  else
    let fr := fetchIssues env s
    let s := fr.1
    match get_item_from_dict_list fr.2 (fun i => i.title) local_issue_name with
    | none => (s, Except.ok ())  -- issue not on Dradis: warn, skip
    | some issue_found =>
      let ha := handle_attachments env s project_id node_id dradis_evidence_content fileParent
      let s := ha.1
      let dradis_evidence_content := ha.2
      match fieldSearch (str "EvidenceID") dradis_evidence_content with
      | some evidence_id =>
        let s := { s with trace := s.trace ++
          [ApiCall.updateEvidence node_id issue_found.id evidence_id
            dradis_evidence_content] }
        match env.updateEvidenceRes evidence_id with
        | Except.ok _ => (s, Except.ok ())
        | Except.error _ =>
          -- `except:` → create a fresh evidence and rewrite the local id
          new_evidence env s node_id issue_found.id dradis_evidence_content true
      | none => new_evidence env s node_id issue_found.id dradis_evidence_content false

/-- `export_issue(project_id, file)`.  `content` plays the role of
`get_textile_content(file)`. -/
def export_issue (env : ApiEnv) (s : Session) (content : List Char) :
    Session × Except PyErr Unit :=
  if content.isEmpty then (s, Except.ok ())
  else
    match get_title content with
    | Except.error e => (s, Except.error e)  -- AttributeError propagates
    | Except.ok title =>
      if title.isEmpty then (s, Except.ok ())  -- warn: no #[Title]# field, skip
      else
        let fr := fetchIssues env s
        let s := fr.1
        match get_item_from_dict_list fr.2 (fun i => i.title) title with
        | none =>
          let s := { s with trace := s.trace ++ [ApiCall.createIssue content] }
          match env.createIssueRes content with
          | Except.ok _ => (s, Except.ok ())
          | Except.error _ => (s, Except.error PyErr.apiError)
        | some issue_found =>
          let s := { s with trace := s.trace ++ [ApiCall.updateIssue issue_found.id content] }
          match env.updateIssueRes issue_found.id content with
          | Except.ok _ => (s, Except.ok ())
          | Except.error _ => (s, Except.error PyErr.apiError)

/-- The `Issues` loop of `update_project`:
`for file in local_issues: self.export_issue(project_id, file)` — there is no
`try`/`except` around the body, so an exception raised by one file's export
propagates and aborts the loop. -/
def exportIssuesBatch (env : ApiEnv) (s : Session) :
    List (List Char) → Session × Except PyErr Unit
  | [] => (s, Except.ok ())
  | c :: rest =>
    match export_issue env s c with
    | (s1, Except.ok _) => exportIssuesBatch env s1 rest
    | (s1, Except.error e) => (s1, Except.error e)

/-- `Path` components of a local file path (root first, file name last). -/
def pathParent (p : List (List Char)) : List (List Char) := p.dropLast

def pathNameOf (p : List (List Char)) : List Char := p.getLastD []

/-- `get_node_id_from_file(project_id, file_path)`.  Subscripting the `None`
returned by a failed lookup raises `TypeError`. -/
def get_node_id_from_file (env : ApiEnv) (s : Session) (file_path : List (List Char)) :
    Session × Except PyErr (Option (List Char)) :=
  let fr := fetchNodes env s
  let s := fr.1
  let nodes := fr.2
  if pathNameOf (pathParent file_path) = str "Content Blocks" then
    match get_item_from_dict_list nodes (fun n => n.label) (str "Uploaded files") with
    | none => (s, Except.error PyErr.typeError)  -- None['id'] raises
    | some uploaded_files_node =>
      (s, Except.ok (some (str (toString (uploaded_files_node.id - 1)))))
  else if pathNameOf (pathParent (pathParent file_path)) = str "Evidences" then
    match get_item_from_dict_list nodes (fun n => n.label)
        (pathNameOf (pathParent (pathParent (pathParent file_path)))) with
    | none => (s, Except.error PyErr.typeError)
    | some evidence_node => (s, Except.ok (some (str (toString evidence_node.id))))
  else (s, Except.ok none)  -- log.error(...); return None

/-- `export_document_properties(project_id, path)`. `pairs` are the key/value
pairs as spelled in `document_properties.ini`; `configparser` lowercases
option names on read (its default `optionxform` is `str.lower`), and each
`update_docprop` is attempted inside `try`/`except`, so a per-key failure is
logged and the remaining keys are still pushed. -/
def export_document_properties (env : ApiEnv) (s : Session)
    (pairs : List (List Char × List Char)) : Session :=
  let properties := pairs.map (fun kv => (pyLower kv.1, kv.2))
  properties.foldl
    (fun s kv =>
      let s1 := { s with trace := s.trace ++ [ApiCall.updateDocprop kv.1 kv.2] }
      match env.updateDocpropRes kv.1 kv.2 with
      | Except.ok _ => s1     -- log.debug(result)
      | Except.error _ => s1  -- except: log.error, continue
      ) s

/-! ### Lemmas about the regex embeddings -/

theorem takeWhile_append_of_all {p : Char → Bool} :
    ∀ {l : List Char}, l.all p = true → ∀ {c : Char}, p c = false → ∀ (r : List Char),
      (l ++ c :: r).takeWhile p = l := by
  intro l
  induction l with
  | nil =>
    intro _ c hc r
    simp [List.takeWhile_cons, hc]
  | cons a as ih =>
    intro h c hc r
    simp only [List.all_cons, Bool.and_eq_true] at h
    simp [List.takeWhile_cons, h.1, ih h.2 hc]

theorem dropWhile_append_of_all {p : Char → Bool} :
    ∀ {l : List Char}, l.all p = true → ∀ {c : Char}, p c = false → ∀ (r : List Char),
      (l ++ c :: r).dropWhile p = c :: r := by
  intro l
  induction l with
  | nil =>
    intro _ c hc r
    simp [List.dropWhile_cons, hc]
  | cons a as ih =>
    intro h c hc r
    simp only [List.all_cons, Bool.and_eq_true] at h
    simp [List.dropWhile_cons, h.1, ih h.2 hc]

/-- If the literal `#[Name]` occurs nowhere in `l`, the field regex has no
match in `l`. -/
theorem fieldSearch_eq_none {name : List Char} :
    ∀ {l : List Char}, occursIn (fieldLit name) l = false → fieldSearch name l = none := by
  intro l
  induction l with
  | nil => intro _; rfl
  | cons c cs ih =>
    intro h
    simp only [occursIn, Bool.or_eq_false_iff] at h
    have hstrip : stripPref (fieldLit name) (c :: cs) = none :=
      Option.not_isSome_iff_eq_none.mp (by simp [h.1])
    simp [fieldSearch, matchFieldAt_eq_none_of_strip hstrip, ih h.2]

/-- Searching `l ++ '\n' :: r` when the literal does not occur in `l` is
searching `'\n' :: r`: no match can start inside `l`. -/
theorem fieldSearch_append {name : List Char} (hnl : (fieldLit name).contains '\n' = false) :
    ∀ {l : List Char} (r : List Char), occursIn (fieldLit name) l = false →
      fieldSearch name (l ++ '\n' :: r) = fieldSearch name ('\n' :: r) := by
  intro l
  induction l with
  | nil => intro r _; rfl
  | cons c cs ih =>
    intro r h
    simp only [occursIn, Bool.or_eq_false_iff] at h
    have hstrip : stripPref (fieldLit name) (c :: (cs ++ '\n' :: r)) = none := by
      cases hs : stripPref (fieldLit name) (c :: (cs ++ '\n' :: r)) with
      | none => rfl
      | some v =>
        have : (stripPref (fieldLit name) (c :: cs)).isSome = true :=
          stripPref_isSome_of_append_nl hnl (l := c :: cs) (r := r) (by simp [hs])
        rw [this] at h
        exact absurd h.1 (by simp)
    have hm : matchFieldAt name (c :: (cs ++ '\n' :: r)) = none :=
      matchFieldAt_eq_none_of_strip hstrip
    calc fieldSearch name ((c :: cs) ++ '\n' :: r)
        = fieldSearch name (cs ++ '\n' :: r) := by simp [fieldSearch, hm]
      _ = fieldSearch name ('\n' :: r) := ih r h.2

/-- The field regex matched at the start of the appended block
`#[Name]#\n\n{eid}\n...` captures exactly `eid`. -/
theorem matchFieldAt_block (name : List Char) {eid : List Char} (tail : List Char)
    (hne : eid ≠ []) (hnl : eid.all (fun ch => !(isNl ch)) = true) :
    matchFieldAt name (fieldLit name ++ '#' :: '\n' :: '\n' :: (eid ++ '\n' :: tail))
      = some (eid, '\n' :: tail) := by
  have htw : (eid ++ '\n' :: tail).takeWhile (fun c => !(isNl c)) = eid :=
    takeWhile_append_of_all hnl (by simp [isNl]) tail
  have hdw : (eid ++ '\n' :: tail).dropWhile (fun c => !(isNl c)) = '\n' :: tail :=
    dropWhile_append_of_all hnl (by simp [isNl]) tail
  obtain ⟨e, es, rfl⟩ : ∃ e es, eid = e :: es := by
    cases eid with
    | nil => exact absurd rfl hne
    | cons e es => exact ⟨e, es, rfl⟩
  have he : isNl e = false := by
    simp only [List.all_cons, Bool.and_eq_true] at hnl
    simpa using hnl.1
  have hnlc : isNl '\n' = true := rfl
  have h1 : ('#' :: '\n' :: '\n' :: (e :: es ++ '\n' :: tail)).takeWhile (fun c => c == '#')
      = ['#'] := by
    simp [List.takeWhile_cons]
  have h2 : ('#' :: '\n' :: '\n' :: (e :: es ++ '\n' :: tail)).dropWhile (fun c => c == '#')
      = '\n' :: '\n' :: (e :: es ++ '\n' :: tail) := by
    simp [List.dropWhile_cons]
  have h3 : ('\n' :: '\n' :: (e :: es ++ '\n' :: tail)).takeWhile isNl = ['\n', '\n'] := by
    simp [List.takeWhile_cons, hnlc, he]
  have h4 : ('\n' :: '\n' :: (e :: es ++ '\n' :: tail)).dropWhile isNl
      = e :: es ++ '\n' :: tail := by
    simp [List.dropWhile_cons, hnlc, he]
  unfold matchFieldAt
  rw [stripPref_self_append]
  simp only [h1, h2, h3, h4]
  have htw2 : (e :: es ++ '\n' :: tail).takeWhile (fun c => !(isNl c)) = e :: es := htw
  have hdw2 : (e :: es ++ '\n' :: tail).dropWhile (fun c => !(isNl c)) = '\n' :: tail := hdw
  simp
  exact ⟨he, by simpa using htw2, by simpa using hdw2⟩

/-- Searching the appended block itself finds `eid`. -/
theorem fieldSearch_block (name : List Char) {eid : List Char} (tail : List Char)
    (hne : eid ≠ []) (hnl : eid.all (fun ch => !(isNl ch)) = true)
    (hlit : (fieldLit name).contains '\n' = false) :
    fieldSearch name ('\n' :: (fieldLit name ++ '#' :: '\n' :: '\n' :: (eid ++ '\n' :: tail)))
      = some eid := by
  have h0 : matchFieldAt name
      ('\n' :: (fieldLit name ++ '#' :: '\n' :: '\n' :: (eid ++ '\n' :: tail))) = none := by
    apply matchFieldAt_eq_none_of_strip
    cases name with
    | nil => simp [fieldLit, stripPref]
    | cons a as => simp [fieldLit, stripPref]
  have hcons : fieldLit name ++ '#' :: '\n' :: '\n' :: (eid ++ '\n' :: tail)
      = '#' :: ('[' :: (name ++ [']']) ++ '#' :: '\n' :: '\n' :: (eid ++ '\n' :: tail)) := by
    simp [fieldLit]
  rw [fieldSearch, h0, hcons, fieldSearch, ← hcons,
    matchFieldAt_block name tail hne hnl]

/-- Substituting in `l ++ '\n' :: r` when the literal does not occur in `l`
keeps `l` intact: every match lies in `'\n' :: r`. -/
theorem fieldSub_append {name : List Char} (hnl : (fieldLit name).contains '\n' = false) :
    ∀ {l : List Char} (r : List Char), occursIn (fieldLit name) l = false →
      fieldSub name (l ++ '\n' :: r) = l ++ fieldSub name ('\n' :: r) := by
  intro l
  induction l with
  | nil => intro r _; rfl
  | cons c cs ih =>
    intro r h
    simp only [occursIn, Bool.or_eq_false_iff] at h
    have hstrip : stripPref (fieldLit name) (c :: (cs ++ '\n' :: r)) = none := by
      cases hs : stripPref (fieldLit name) (c :: (cs ++ '\n' :: r)) with
      | none => rfl
      | some v =>
        have : (stripPref (fieldLit name) (c :: cs)).isSome = true :=
          stripPref_isSome_of_append_nl hnl (l := c :: cs) (r := r) (by simp [hs])
        rw [this] at h
        exact absurd h.1 (by simp)
    have hm : matchFieldAt name (c :: (cs ++ '\n' :: r)) = none :=
      matchFieldAt_eq_none_of_strip hstrip
    calc fieldSub name ((c :: cs) ++ '\n' :: r)
        = c :: fieldSub name (cs ++ '\n' :: r) := by
          rw [List.cons_append, fieldSub, hm]
      _ = c :: (cs ++ fieldSub name ('\n' :: r)) := by rw [ih r h.2]
      _ = (c :: cs) ++ fieldSub name ('\n' :: r) := by simp

/-- Substitution removes the whole appended block `\n#[Name]#\n\n{eid}`,
leaving the surrounding newlines. -/
theorem fieldSub_block (name : List Char) {eid : List Char} (tail : List Char)
    (hne : eid ≠ []) (hnl : eid.all (fun ch => !(isNl ch)) = true) :
    fieldSub name ('\n' :: (fieldLit name ++ '#' :: '\n' :: '\n' :: (eid ++ '\n' :: tail)))
      = '\n' :: fieldSub name ('\n' :: tail) := by
  have h0 : matchFieldAt name
      ('\n' :: (fieldLit name ++ '#' :: '\n' :: '\n' :: (eid ++ '\n' :: tail))) = none := by
    apply matchFieldAt_eq_none_of_strip
    cases name with
    | nil => simp [fieldLit, stripPref]
    | cons a as => simp [fieldLit, stripPref]
  rw [fieldSub, h0]
  have hcons : fieldLit name ++ '#' :: '\n' :: '\n' :: (eid ++ '\n' :: tail)
      = '#' :: ('[' :: (name ++ [']']) ++ '#' :: '\n' :: '\n' :: (eid ++ '\n' :: tail)) := by
    simp [fieldLit]
  rw [hcons, fieldSub, ← hcons, matchFieldAt_block name tail hne hnl]

/-- A content with no `'!'` contains no attachment reference. -/
theorem parseAttachAux_eq_nil {l : List Char} (h : l.contains '!' = false) :
    parseAttachAux l = [] := by
  induction l with
  | nil => simp [parseAttachAux]
  | cons c cs ih =>
    simp only [List.contains_cons, Bool.or_eq_false_iff] at h
    have hc : ¬ c = '!' := by
      intro hc
      subst hc
      simp at h
    rw [parseAttachAux, if_neg hc]
    exact ih h.2

/-! ### Lemmas about the sanitiser -/

theorem foldl_pyRemoveChar_eq_filter :
    ∀ (cs l : List Char), List.foldl pyRemoveChar l cs = l.filter (fun x => !(cs.contains x)) := by
  intro cs
  induction cs with
  | nil => intro l; simp
  | cons c cs ih =>
    intro l
    rw [List.foldl_cons]
    show List.foldl pyRemoveChar (pyRemoveChar l c) cs = _
    rw [ih]
    unfold pyRemoveChar
    rw [List.filter_filter]
    congr 1
    funext x
    by_cases hx : x = c
    · simp [hx, List.contains_cons]
    · simp [hx, List.contains_cons]

/-- `clean_filename` only filters characters, so it is idempotent. -/
theorem clean_filename_idem (x : List Char) :
    clean_filename (clean_filename x) = clean_filename x := by
  unfold clean_filename
  rw [foldl_pyRemoveChar_eq_filter, foldl_pyRemoveChar_eq_filter, List.filter_filter]
  congr 1
  funext c
  by_cases hc : BAD_FILENAME_CHARS.contains c <;> simp [hc]

/-! ### Lemmas about `handle_attachments` -/

/-- The attachment's filename is already listed remotely. -/
def attachListed (env : ApiEnv) (node_id : List Char) (a : AttachMatch) : Bool :=
  (env.attachments node_id).any (fun d => d == decodeSpaces (pathName a.path))

/-- The attachment is not listed remotely and its file exists locally:
it gets queued for upload. -/
def attachQueued (env : ApiEnv) (node_id fileParent : List Char) (a : AttachMatch) : Bool :=
  !(attachListed env node_id a) && env.onDisk (fullAttachmentPath fileParent a)

/-- The attachment is not listed remotely and its file is missing locally:
it is skipped with a warning. -/
def attachMissing (env : ApiEnv) (node_id fileParent : List Char) (a : AttachMatch) : Bool :=
  !(attachListed env node_id a) && !(env.onDisk (fullAttachmentPath fileParent a))

theorem attachLoop_spec (env : ApiEnv) (project_id node_id fileParent : List Char) :
    ∀ (atts : List AttachMatch) (files already : List (List Char)) (content : List Char),
      attachLoop env project_id node_id (env.attachments node_id) fileParent atts
          files already content
        = (files ++ (atts.filter (attachQueued env node_id fileParent)).map
              (fullAttachmentPath fileParent),
           already ++ (atts.filter (attachListed env node_id)).map (fun a => pathName a.path),
           atts.foldl
             (fun c a =>
               if attachMissing env node_id fileParent a then c
               else pyReplace a.matched (canonicalRef project_id node_id a) c)
             content) := by
  intro atts
  induction atts with
  | nil => intro files already content; simp [attachLoop]
  | cons a rest ih =>
    intro files already content
    by_cases hL : attachListed env node_id a = true
    · have hQ : attachQueued env node_id fileParent a = false := by
        simp [attachQueued, hL]
      have hM : attachMissing env node_id fileParent a = false := by
        simp [attachMissing, hL]
      have hL' : (env.attachments node_id).any
          (fun d => d == decodeSpaces (pathName a.path)) = true := hL
      simp only [attachLoop, hL', Bool.not_true, Bool.false_eq_true, if_false, ih,
        List.filter_cons, hQ, hM, hL, if_true, List.foldl_cons, List.map_cons]
      simp
    · have hL2 : attachListed env node_id a = false := Bool.eq_false_iff.mpr hL
      have hL' : (env.attachments node_id).any
          (fun d => d == decodeSpaces (pathName a.path)) = false := hL2
      by_cases hD : env.onDisk (fullAttachmentPath fileParent a) = true
      · have hQ : attachQueued env node_id fileParent a = true := by
          simp [attachQueued, hL, hD]
        have hM : attachMissing env node_id fileParent a = false := by
          simp [attachMissing, hD]
        simp only [attachLoop, hL', Bool.not_false, if_true, hD, ih,
          List.filter_cons, hQ, hM, hL, if_false, List.foldl_cons, List.map_cons,
          Bool.false_eq_true]
        simp
      · have hD' : env.onDisk (fullAttachmentPath fileParent a) = false := by
          simpa using hD
        have hQ : attachQueued env node_id fileParent a = false := by
          simp [attachQueued, hD']
        have hM : attachMissing env node_id fileParent a = true := by
          simp [attachMissing, hL, hD']
        simp only [attachLoop, hL', Bool.not_false, if_true, hD', Bool.false_eq_true, if_false,
          ih, List.filter_cons, hQ, hM, hL, List.foldl_cons, List.map_cons]

/-! ### Session cache phases (claim C8) -/

def issuesCachePhase (env : ApiEnv) (s : Session) : Prop :=
  (s.trace.countP isGetAllIssuesCall = 0 ∧ s.issue_list = []) ∨
  (s.trace.countP isGetAllIssuesCall ≤ 1 ∧ s.issue_list = env.issues)

theorem issuesCachePhase_append (env : ApiEnv) (s : Session) (a : ApiCall)
    (ha : isGetAllIssuesCall a = false) (h : issuesCachePhase env s) :
    issuesCachePhase env { s with trace := s.trace ++ [a] } := by
  have hcount : (s.trace ++ [a]).countP isGetAllIssuesCall
      = s.trace.countP isGetAllIssuesCall := by
    simp [List.countP_append, List.countP_cons, ha]
  rcases h with ⟨h1, h2⟩ | ⟨h1, h2⟩
  · exact Or.inl ⟨by simpa [hcount] using h1, h2⟩
  · exact Or.inr ⟨by simpa [hcount] using h1, h2⟩

theorem fetchIssues_phase (env : ApiEnv) (henv : env.issues ≠ []) (s : Session)
    (h : issuesCachePhase env s) :
    issuesCachePhase env (fetchIssues env s).1
      ∧ (fetchIssues env s).1.issue_list = env.issues := by
  by_cases he : s.issue_list.isEmpty = true
  · rw [fetchIssues, if_pos he]
    have hcount : (s.trace ++ [ApiCall.getAllIssues]).countP isGetAllIssuesCall
        = s.trace.countP isGetAllIssuesCall + 1 := by
      simp [List.countP_append, List.countP_cons, isGetAllIssuesCall]
    rcases h with ⟨h1, _⟩ | ⟨_, h2⟩
    · exact ⟨Or.inr ⟨by simp [hcount, h1], rfl⟩, rfl⟩
    · exact absurd (List.isEmpty_iff.mp (h2 ▸ he)) henv
  · rw [fetchIssues, if_neg he]
    rcases h with ⟨_, h2⟩ | ⟨h1, h2⟩
    · exact absurd (by simp [h2]) he
    · exact ⟨Or.inr ⟨h1, h2⟩, h2⟩

theorem export_issue_phase (env : ApiEnv) (henv : env.issues ≠ []) (s : Session)
    (c : List Char) (h : issuesCachePhase env s) :
    issuesCachePhase env (export_issue env s c).1 := by
  unfold export_issue
  dsimp only
  split
  · exact h
  · split
    · exact h
    · split
      · exact h
      · have hf := fetchIssues_phase env henv s h
        split
        · split
          · exact issuesCachePhase_append env _ _ rfl hf.1
          · exact issuesCachePhase_append env _ _ rfl hf.1
        · split
          · exact issuesCachePhase_append env _ _ rfl hf.1
          · exact issuesCachePhase_append env _ _ rfl hf.1

def nodesCachePhase (env : ApiEnv) (s : Session) : Prop :=
  (s.trace.countP isGetAllNodesCall = 0 ∧ s.dradis_nodes = []) ∨
  (s.trace.countP isGetAllNodesCall ≤ 1 ∧ s.dradis_nodes = env.nodes)

theorem fetchNodes_phase (env : ApiEnv) (henv : env.nodes ≠ []) (s : Session)
    (h : nodesCachePhase env s) :
    nodesCachePhase env (fetchNodes env s).1
      ∧ (fetchNodes env s).1.dradis_nodes = env.nodes := by
  by_cases he : s.dradis_nodes.isEmpty = true
  · rw [fetchNodes, if_pos he]
    have hcount : (s.trace ++ [ApiCall.getAllNodes]).countP isGetAllNodesCall
        = s.trace.countP isGetAllNodesCall + 1 := by
      simp [List.countP_append, List.countP_cons, isGetAllNodesCall]
    rcases h with ⟨h1, _⟩ | ⟨_, h2⟩
    · exact ⟨Or.inr ⟨by simp [hcount, h1], rfl⟩, rfl⟩
    · exact absurd (List.isEmpty_iff.mp (h2 ▸ he)) henv
  · rw [fetchNodes, if_neg he]
    rcases h with ⟨_, h2⟩ | ⟨h1, h2⟩
    · exact absurd (by simp [h2]) he
    · exact ⟨Or.inr ⟨h1, h2⟩, h2⟩

theorem get_node_id_phase (env : ApiEnv) (henv : env.nodes ≠ []) (s : Session)
    (p : List (List Char)) (h : nodesCachePhase env s) :
    nodesCachePhase env (get_node_id_from_file env s p).1 := by
  unfold get_node_id_from_file
  dsimp only
  have hf := fetchNodes_phase env henv s h
  split
  · split
    · exact hf.1
    · exact hf.1
  · split
    · split
      · exact hf.1
      · exact hf.1
    · exact hf.1

/-! ### Small bridging lemmas -/

theorem contains_nl_eq_false_of_all {l : List Char}
    (h : l.all (fun ch => !(isNl ch)) = true) : l.contains '\n' = false := by
  induction l with
  | nil => simp
  | cons c cs ih =>
    simp only [List.all_cons, Bool.and_eq_true] at h
    have hc : ¬ '\n' = c := by
      intro hc
      rw [← hc] at h
      simp [isNl] at h
    have h2 := ih h.2
    simp only [List.contains_cons, Bool.or_eq_false_iff, h2, and_true]
    simpa using hc

theorem ne_nil_of_get_item {α : Type} {l : List α} {key : α → List Char} {m : List Char}
    {x : α} (h : get_item_from_dict_list l key m = some x) : l ≠ [] := by
  intro he
  subst he
  simp [get_item_from_dict_list] at h

/-- The trace written by `export_document_properties`: one `update_docprop`
attempt per key, in order, key lowercased, regardless of per-key failures. -/
theorem export_document_properties_trace (env : ApiEnv) :
    ∀ (pairs : List (List Char × List Char)) (s : Session),
      (export_document_properties env s pairs).trace
        = s.trace ++ pairs.map (fun kv => ApiCall.updateDocprop (pyLower kv.1) kv.2) := by
  intro pairs
  induction pairs with
  | nil => intro s; simp [export_document_properties]
  | cons kv rest ih =>
    intro s
    have step :
        export_document_properties env s (kv :: rest)
          = export_document_properties env
              { s with trace := s.trace ++ [ApiCall.updateDocprop (pyLower kv.1) kv.2] } rest := by
      unfold export_document_properties
      simp only [List.map_cons, List.foldl_cons]
      cases env.updateDocpropRes (pyLower kv.1) kv.2 <;> rfl
    rw [step, ih]
    simp

/-! ### Concrete environments used to evaluate the embedding -/

/-- Issue file contents used in the batch scenarios. -/
def contentAlpha : List Char := str "#[Title]#\nAlpha\n"

def contentBravo : List Char := str "#[Title]#\nBravo\n"

def contentCharlie : List Char := str "#[Title]#\nCharlie\n"

/-- A remote project with no issues and no nodes; every write succeeds. -/
def envEmpty : ApiEnv :=
  { issues := []
    nodes := []
    attachments := fun _ => []
    onDisk := fun _ => false
    createIssueRes := fun _ => Except.ok 5
    updateIssueRes := fun _ _ => Except.ok ()
    createEvidenceRes := Except.ok (str "42")
    updateEvidenceRes := fun _ => Except.ok ()
    updateDocpropRes := fun _ _ => Except.ok () }

/-- A remote project with one existing issue, where creating the issue whose
content is `contentBravo` fails remotely. -/
def envBravoFails : ApiEnv :=
  { envEmpty with
    issues := [{ id := 1, title := str "Existing" }]
    createIssueRes := fun c => if c = contentBravo then Except.error () else Except.ok 7 }

/-- A remote project with a non-empty issue list and two nodes, among them the
"Uploaded files" sentinel. -/
def envNodes : ApiEnv :=
  { envEmpty with
    issues := [{ id := 1, title := str "Existing" }]
    nodes := [{ id := 10, label := str "Uploaded files" }, { id := 4, label := str "WebServer" }] }


theorem handle_attachments_no_refs (env : ApiEnv) (s : Session)
    (project_id node_id content fileParent : List Char)
    (h : content.contains '!' = false) :
    handle_attachments env s project_id node_id content fileParent
      = ({ s with trace := s.trace ++ [ApiCall.getAllAttachments node_id] }, content) := by
  unfold handle_attachments
  dsimp only
  rw [parseAttachAux_eq_nil h]
  simp

theorem evidence_block_eq (eid : List Char) :
    str "\n#[EvidenceID]#\n\n" ++ eid ++ str "\n"
      = '\n' :: (fieldLit (str "EvidenceID")
          ++ '#' :: '\n' :: '\n' :: (eid ++ '\n' :: [])) := by
  have h : str "\n#[EvidenceID]#\n\n"
      = '\n' :: (fieldLit (str "EvidenceID") ++ ['#', '\n', '\n']) := by decide
  have h2 : str "\n" = ['\n'] := by decide
  rw [h, h2]
  simp

theorem fieldSearch_evidence_file {c eid : List Char}
    (hocc : occursIn (fieldLit (str "EvidenceID")) c = false)
    (hne : eid ≠ []) (hnl : eid.all (fun ch => !(isNl ch)) = true) :
    fieldSearch (str "EvidenceID") (c ++ (str "\n#[EvidenceID]#\n\n" ++ eid ++ str "\n"))
      = some eid := by
  rw [evidence_block_eq eid]
  rw [fieldSearch_append (by decide) _ hocc]
  exact fieldSearch_block (str "EvidenceID") [] hne hnl (by decide)

theorem contains_append_eq (a b : List Char) (ch : Char) :
    (a ++ b).contains ch = (a.contains ch || b.contains ch) := by
  induction a with
  | nil => simp
  | cons x xs ih => simp [List.contains_cons, ih, Bool.or_assoc]

theorem export_evidence_fresh_create (env : ApiEnv) (project_id node_id issue_name fileParent : List Char)
    (c eid : List Char) (iss : Issue)
    (hc : c ≠ [])
    (hocc : occursIn (fieldLit (str "EvidenceID")) c = false)
    (hbc : c.contains '!' = false)
    (hfind : get_item_from_dict_list env.issues (fun i => i.title) issue_name = some iss)
    (hcr : env.createEvidenceRes = Except.ok eid) :
    export_evidence env (freshSession c) project_id node_id issue_name fileParent
      = ({ issue_list := env.issues, dradis_nodes := [],
           fileContent := c ++ str "\n#[EvidenceID]#\n\n" ++ eid ++ str "\n",
           trace := [ApiCall.getAllIssues, ApiCall.getAllAttachments node_id,
             ApiCall.createEvidence node_id iss.id c] }, Except.ok ()) := by
  have hcE : c.isEmpty = false := by
    cases c with
    | nil => exact absurd rfl hc
    | cons a as => rfl
  unfold export_evidence
  dsimp only [freshSession]
  rw [hcE]
  have hfetch : fetchIssues env
      { issue_list := [], dradis_nodes := [], fileContent := c, trace := [] }
      = ({ issue_list := env.issues, dradis_nodes := [], fileContent := c,
            trace := [ApiCall.getAllIssues] }, env.issues) := by
    rw [fetchIssues]
    simp
  rw [hfetch]
  dsimp only
  rw [hfind]
  rw [handle_attachments_no_refs env _ project_id node_id c fileParent hbc]
  dsimp only
  rw [fieldSearch_eq_none hocc]
  unfold new_evidence
  rw [hcr]
  dsimp only
  simp

theorem export_evidence_cached_update (env : ApiEnv) (project_id node_id issue_name fileParent : List Char)
    (c eid : List Char) (iss : Issue)
    (hocc : occursIn (fieldLit (str "EvidenceID")) c = false)
    (hbc : c.contains '!' = false)
    (hbe : eid.contains '!' = false)
    (hne : eid ≠ [])
    (hnl : eid.all (fun ch => !(isNl ch)) = true)
    (hfind : get_item_from_dict_list env.issues (fun i => i.title) issue_name = some iss)
    (hup : env.updateEvidenceRes eid = Except.ok ()) :
    export_evidence env
        (freshSession (c ++ str "\n#[EvidenceID]#\n\n" ++ eid ++ str "\n"))
        project_id node_id issue_name fileParent
      = ({ issue_list := env.issues, dradis_nodes := [],
           fileContent := c ++ str "\n#[EvidenceID]#\n\n" ++ eid ++ str "\n",
           trace := [ApiCall.getAllIssues, ApiCall.getAllAttachments node_id,
             ApiCall.updateEvidence node_id iss.id eid
               (c ++ str "\n#[EvidenceID]#\n\n" ++ eid ++ str "\n")] }, Except.ok ()) := by
  have hne2 : (c ++ str "\n#[EvidenceID]#\n\n" ++ eid ++ str "\n") ≠ [] := by
    simp [str]
  have hcE : (c ++ str "\n#[EvidenceID]#\n\n" ++ eid ++ str "\n").isEmpty = false := by
    cases hx : (c ++ str "\n#[EvidenceID]#\n\n" ++ eid ++ str "\n") with
    | nil => exact absurd hx hne2
    | cons a as => rfl
  have hbang2 : (c ++ str "\n#[EvidenceID]#\n\n" ++ eid ++ str "\n").contains '!' = false := by
    have hb1 : (str "\n#[EvidenceID]#\n\n").contains '!' = false := by decide
    have hb2 : (str "\n").contains '!' = false := by decide
    simp only [contains_append_eq, Bool.or_eq_false_iff]
    exact ⟨⟨⟨hbc, hb1⟩, hbe⟩, hb2⟩
  have hsearch : fieldSearch (str "EvidenceID")
      (c ++ str "\n#[EvidenceID]#\n\n" ++ eid ++ str "\n") = some eid := by
    have hassoc : c ++ str "\n#[EvidenceID]#\n\n" ++ eid ++ str "\n"
        = c ++ (str "\n#[EvidenceID]#\n\n" ++ eid ++ str "\n") := by simp
    rw [hassoc]
    exact fieldSearch_evidence_file hocc hne hnl
  unfold export_evidence
  dsimp only [freshSession]
  rw [hcE]
  have hfetch : fetchIssues env
      { issue_list := [], dradis_nodes := [],
        fileContent := c ++ str "\n#[EvidenceID]#\n\n" ++ eid ++ str "\n", trace := [] }
      = ({ issue_list := env.issues, dradis_nodes := [],
            fileContent := c ++ str "\n#[EvidenceID]#\n\n" ++ eid ++ str "\n",
            trace := [ApiCall.getAllIssues] }, env.issues) := by
    rw [fetchIssues]
    simp
  rw [hfetch]
  dsimp only
  rw [hfind]
  rw [handle_attachments_no_refs env _ project_id node_id _ fileParent hbang2]
  dsimp only
  rw [hsearch]
  dsimp only
  rw [hup]
  simp

theorem fieldSub_single_nl : fieldSub (str "EvidenceID") ['\n'] = ['\n'] := by
  have h : matchFieldAt (str "EvidenceID") ['\n'] = none := by decide
  rw [fieldSub, h]
  simp [fieldSub]

theorem fieldSub_evidence_file {c old : List Char}
    (hocc : occursIn (fieldLit (str "EvidenceID")) c = false)
    (hne : old ≠ []) (hnl : old.all (fun ch => !(isNl ch)) = true) :
    fieldSub (str "EvidenceID") (c ++ str "\n#[EvidenceID]#\n\n" ++ old ++ str "\n")
      = c ++ str "\n\n" := by
  have hassoc : c ++ str "\n#[EvidenceID]#\n\n" ++ old ++ str "\n"
      = c ++ (str "\n#[EvidenceID]#\n\n" ++ old ++ str "\n") := by simp
  rw [hassoc, evidence_block_eq old, fieldSub_append (by decide) _ hocc,
    fieldSub_block (str "EvidenceID") [] hne hnl, fieldSub_single_nl]
  have h2 : str "\n\n" = ['\n', '\n'] := by decide
  rw [h2]

theorem export_evidence_fallback_run (env : ApiEnv) (project_id node_id issue_name fileParent : List Char)
    (c old new : List Char) (iss : Issue)
    (hocc : occursIn (fieldLit (str "EvidenceID")) c = false)
    (hbc : c.contains '!' = false)
    (hbold : old.contains '!' = false)
    (hne : old ≠ []) (hnl : old.all (fun ch => !(isNl ch)) = true)
    (hfind : get_item_from_dict_list env.issues (fun i => i.title) issue_name = some iss)
    (hup : env.updateEvidenceRes old = Except.error ())
    (hcr : env.createEvidenceRes = Except.ok new) :
    export_evidence env
        (freshSession (c ++ str "\n#[EvidenceID]#\n\n" ++ old ++ str "\n"))
        project_id node_id issue_name fileParent
      = ({ issue_list := env.issues, dradis_nodes := [],
           fileContent := c ++ str "\n\n" ++ str "\n#[EvidenceID]#\n\n" ++ new ++ str "\n",
           trace := [ApiCall.getAllIssues, ApiCall.getAllAttachments node_id,
             ApiCall.updateEvidence node_id iss.id old
               (c ++ str "\n#[EvidenceID]#\n\n" ++ old ++ str "\n"),
             ApiCall.createEvidence node_id iss.id
               (c ++ str "\n#[EvidenceID]#\n\n" ++ old ++ str "\n")] },
         Except.ok ()) := by
  have hne2 : (c ++ str "\n#[EvidenceID]#\n\n" ++ old ++ str "\n") ≠ [] := by
    simp [str]
  have hcE : (c ++ str "\n#[EvidenceID]#\n\n" ++ old ++ str "\n").isEmpty = false := by
    cases hx : (c ++ str "\n#[EvidenceID]#\n\n" ++ old ++ str "\n") with
    | nil => exact absurd hx hne2
    | cons a as => rfl
  have hbang2 : (c ++ str "\n#[EvidenceID]#\n\n" ++ old ++ str "\n").contains '!' = false := by
    have hb1 : (str "\n#[EvidenceID]#\n\n").contains '!' = false := by decide
    have hb2 : (str "\n").contains '!' = false := by decide
    simp only [contains_append_eq, Bool.or_eq_false_iff]
    exact ⟨⟨⟨hbc, hb1⟩, hbold⟩, hb2⟩
  have hsearch : fieldSearch (str "EvidenceID")
      (c ++ str "\n#[EvidenceID]#\n\n" ++ old ++ str "\n") = some old := by
    have hassoc : c ++ str "\n#[EvidenceID]#\n\n" ++ old ++ str "\n"
        = c ++ (str "\n#[EvidenceID]#\n\n" ++ old ++ str "\n") := by simp
    rw [hassoc]
    exact fieldSearch_evidence_file hocc hne hnl
  unfold export_evidence
  dsimp only [freshSession]
  rw [hcE]
  have hfetch : fetchIssues env
      { issue_list := [], dradis_nodes := [],
        fileContent := c ++ str "\n#[EvidenceID]#\n\n" ++ old ++ str "\n", trace := [] }
      = ({ issue_list := env.issues, dradis_nodes := [],
            fileContent := c ++ str "\n#[EvidenceID]#\n\n" ++ old ++ str "\n",
            trace := [ApiCall.getAllIssues] }, env.issues) := by
    rw [fetchIssues]
    simp
  rw [hfetch]
  dsimp only
  rw [hfind]
  rw [handle_attachments_no_refs env _ project_id node_id _ fileParent hbang2]
  dsimp only
  rw [hsearch]
  dsimp only
  rw [hup]
  unfold new_evidence
  dsimp only
  rw [hcr]
  dsimp only
  rw [if_pos rfl, fieldSub_evidence_file hocc hne hnl]
  simp

theorem occursIn_cons_nl {t : List Char} (hnl : t.contains '\n' = false) (hne : t ≠ []) :
    ∀ {b : List Char}, occursIn t ('\n' :: b) = true → occursIn t b = true := by
  intro b h
  simp only [occursIn, Bool.or_eq_true] at h
  rcases h with h | h
  · cases t with
    | nil => exact absurd rfl hne
    | cons x ts =>
      have hx : ¬ x = '\n' := by
        simp only [List.contains_cons, Bool.or_eq_false_iff] at hnl
        intro hne2
        simp [hne2] at hnl
      simp [stripPref, hx] at h
  · exact h

theorem old_id_absent {c old new : List Char}
    (hne : old ≠ [])
    (hnlfree : old.contains '\n' = false)
    (hnc : occursIn old c = false)
    (hnlit : occursIn old (str "#[EvidenceID]#") = false)
    (hnnew : occursIn old new = false) :
    occursIn old (c ++ str "\n\n" ++ str "\n#[EvidenceID]#\n\n" ++ new ++ str "\n")
      = false := by
  have hshape : c ++ str "\n\n" ++ str "\n#[EvidenceID]#\n\n" ++ new ++ str "\n"
      = c ++ '\n' :: ('\n' :: ('\n' :: (str "#[EvidenceID]#"
          ++ '\n' :: ('\n' :: (new ++ '\n' :: []))))) := by
    have e1 : str "\n\n" = ['\n', '\n'] := by decide
    have e2 : str "\n#[EvidenceID]#\n\n"
        = '\n' :: (str "#[EvidenceID]#" ++ ['\n', '\n']) := by decide
    have e3 : str "\n" = ['\n'] := by decide
    rw [e1, e2, e3]
    simp
  rw [hshape]
  rcases hx : occursIn old (c ++ '\n' :: ('\n' :: ('\n' :: (str "#[EvidenceID]#"
      ++ '\n' :: ('\n' :: (new ++ '\n' :: [])))))) with _ | _
  · rfl
  · exfalso
    have h1 := occursIn_append_nl hnlfree hx
    rcases h1 with h1 | h1
    · rw [hnc] at h1
      exact absurd h1 (by simp)
    · have h2 := occursIn_cons_nl hnlfree hne h1
      have h3 := occursIn_cons_nl hnlfree hne h2
      rcases occursIn_append_nl hnlfree h3 with h4 | h4
      · rw [hnlit] at h4
        exact absurd h4 (by simp)
      · have h5 := occursIn_cons_nl hnlfree hne h4
        rcases occursIn_append_nl hnlfree h5 with h6 | h6
        · rw [hnnew] at h6
          exact absurd h6 (by simp)
        · rw [occursIn_nil hne] at h6
          exact absurd h6 (by simp)

theorem occursIn_lit_pad {c : List Char}
    (hocc : occursIn (fieldLit (str "EvidenceID")) c = false) :
    occursIn (fieldLit (str "EvidenceID")) (c ++ str "\n\n") = false := by
  have e1 : str "\n\n" = ['\n', '\n'] := by decide
  rw [e1]
  have hlitnl : (fieldLit (str "EvidenceID")).contains '\n' = false := by decide
  have hlitne : fieldLit (str "EvidenceID") ≠ [] := by decide
  rcases hx : occursIn (fieldLit (str "EvidenceID")) (c ++ ['\n', '\n']) with _ | _
  · rfl
  · exfalso
    rcases occursIn_append_nl hlitnl hx with h1 | h1
    · rw [hocc] at h1
      exact absurd h1 (by simp)
    · have h2 := occursIn_cons_nl hlitnl hlitne h1
      rw [occursIn_nil hlitne] at h2
      exact absurd h2 (by simp)

/-! ### Claims -/

/-- C1: the spec says a file with no `#[Title]#` marker is skipped with a
warning and `get_title` returns the empty string; on the code, `get_title`
evaluates `match.group(1)` before its `not match` test, so a content with no
marker raises `AttributeError`, which propagates out of `export_issue`
(no skip, no remote call).  The other half of the claim does hold: a marker
whose value line is itself another marker yields the empty string, and the
export skips the file.  This theorem evaluates the code at the failing input
and at the working guard input. -/
theorem C1_get_title_crash :
    get_title (str "Some textile content with no marker") = Except.error PyErr.attributeError
    ∧ export_issue envEmpty (freshSession []) (str "Some textile content with no marker")
        = (freshSession [], Except.error PyErr.attributeError)
    ∧ get_title (str "#[Title]#\n#[Description]#\nvalue") = Except.ok []
    ∧ export_issue envEmpty (freshSession []) (str "#[Title]#\n#[Description]#\nvalue")
        = (freshSession [], Except.ok ()) := by
  refine ⟨by decide, by decide, by decide, by decide⟩

/-- C2, counterexample: three local issue files where the remote create for
the second raises.  The batch loop of `update_project` has no `try`/`except`,
so the exception aborts it: the create for the first and second files is
attempted, the third file is never exported — refuting the claim that calls
are still performed for the third file. -/
theorem C2_third_file_never_attempted :
    (exportIssuesBatch envBravoFails (freshSession [])
        [contentAlpha, contentBravo, contentCharlie]).2 = Except.error PyErr.apiError
    ∧ (exportIssuesBatch envBravoFails (freshSession [])
        [contentAlpha, contentBravo, contentCharlie]).1.trace
      = [ApiCall.getAllIssues, ApiCall.createIssue contentAlpha,
          ApiCall.createIssue contentBravo]
    ∧ ApiCall.createIssue contentCharlie ∉
        (exportIssuesBatch envBravoFails (freshSession [])
          [contentAlpha, contentBravo, contentCharlie]).1.trace := by
  refine ⟨by decide, by decide, by decide⟩

/-- C2, amended: a remote create/update failure on one file aborts the rest of
the batch: if `export_issue` raises on the head file, the batch stops there —
its result and trace are those of the failing export, so files after the
failing one are never attempted (while files before it were exported). -/
theorem C2_failure_aborts_batch (env : ApiEnv) (s : Session) (c : List Char)
    (rest : List (List Char)) (s1 : Session) (e : PyErr)
    (h : export_issue env s c = (s1, Except.error e)) :
    exportIssuesBatch env s (c :: rest) = (s1, Except.error e) := by
  unfold exportIssuesBatch
  rw [h]

/-- C2, witness for the amended theorem: in the concrete failing batch, the
files after the failing second file are never attempted. -/
theorem C2_failure_aborts_batch_witness :
    exportIssuesBatch envBravoFails
        { issue_list := [{ id := 1, title := str "Existing" }]
          dradis_nodes := []
          fileContent := []
          trace := [ApiCall.getAllIssues, ApiCall.createIssue contentAlpha] }
        [contentBravo, contentCharlie]
      = ({ issue_list := [{ id := 1, title := str "Existing" }]
           dradis_nodes := []
           fileContent := []
           trace := [ApiCall.getAllIssues, ApiCall.createIssue contentAlpha,
             ApiCall.createIssue contentBravo] },
         Except.error PyErr.apiError) :=
  C2_failure_aborts_batch envBravoFails _ contentBravo [contentCharlie] _ PyErr.apiError
    (by decide)

/-- C6: the sanitiser is idempotent — `clean_filename (clean_filename x)
= clean_filename x` for every string — and `get_item_from_dict_list` matches a
local name against a remote record exactly when the sanitised forms are equal
case-insensitively, never by raw string equality (the last conjunct exhibits a
match between raw-unequal names). -/
theorem C6_sanitizer_idempotent_and_match :
    (∀ x : List Char, clean_filename (clean_filename x) = clean_filename x)
    ∧ (∀ (α : Type) (dict_list : List α) (key : α → List Char) (m : List Char),
        (get_item_from_dict_list dict_list key m).isSome = true
          ↔ ∃ d ∈ dict_list, pyLower (clean_filename (key d)) = pyLower (clean_filename m))
    ∧ get_item_from_dict_list [({ id := 1, title := str "A.b" } : Issue)]
        (fun i => i.title) (str "ab") = some { id := 1, title := str "A.b" }
    ∧ (str "A.b" : List Char) ≠ str "ab" := by
  refine ⟨clean_filename_idem, ?_, by decide, by decide⟩
  intro α dict_list key m
  unfold get_item_from_dict_list
  rw [List.find?_isSome]
  constructor
  · rintro ⟨d, hd, hp⟩
    exact ⟨d, hd, beq_iff_eq.mp hp⟩
  · rintro ⟨d, hd, hp⟩
    exact ⟨d, hd, beq_iff_eq.mpr hp⟩

/-- C7: node resolution from a file's position. A file directly under
`Content Blocks/` resolves to the id of the remote node labelled
"Uploaded files" minus one; a file under `Nodes/<label>/Evidences/<issue>/`
resolves to the id of the remote node whose label matches the `<label>`
folder, three levels up (sanitised, case-insensitive lookup); any other path
shape resolves to the failure value `None` without raising. -/
theorem C7_node_resolution :
    (∀ (env : ApiEnv) (s : Session) (p : List (List Char)) (n : Node),
      s.dradis_nodes = [] →
      pathNameOf (pathParent p) = str "Content Blocks" →
      get_item_from_dict_list env.nodes (fun nd => nd.label) (str "Uploaded files") = some n →
      (get_node_id_from_file env s p).2 = Except.ok (some (str (toString (n.id - 1)))))
    ∧ (∀ (env : ApiEnv) (s : Session) (p : List (List Char)) (n : Node),
      s.dradis_nodes = [] →
      pathNameOf (pathParent p) ≠ str "Content Blocks" →
      pathNameOf (pathParent (pathParent p)) = str "Evidences" →
      get_item_from_dict_list env.nodes (fun nd => nd.label)
          (pathNameOf (pathParent (pathParent (pathParent p)))) = some n →
      (get_node_id_from_file env s p).2 = Except.ok (some (str (toString n.id))))
    ∧ (∀ (env : ApiEnv) (s : Session) (p : List (List Char)),
      pathNameOf (pathParent p) ≠ str "Content Blocks" →
      pathNameOf (pathParent (pathParent p)) ≠ str "Evidences" →
      (get_node_id_from_file env s p).2 = Except.ok none) := by
  refine ⟨?_, ?_, ?_⟩
  · intro env s p n hs hcb hfind
    unfold get_node_id_from_file
    have hfetch : (fetchNodes env s).2 = env.nodes := by
      rw [fetchNodes, if_pos (by simp [hs])]
    dsimp only
    rw [hfetch, if_pos hcb, hfind]
  · intro env s p n hs hcb hev hfind
    unfold get_node_id_from_file
    have hfetch : (fetchNodes env s).2 = env.nodes := by
      rw [fetchNodes, if_pos (by simp [hs])]
    dsimp only
    rw [hfetch, if_neg hcb, if_pos hev, hfind]
  · intro env s p hcb hev
    unfold get_node_id_from_file
    dsimp only
    rw [if_neg hcb, if_neg hev]

/-- C7, witness: in `envNodes` ("Uploaded files" has id 10, "WebServer" id 4),
a content-block file resolves to "9", an evidence file under
`Nodes/WebServer/Evidences/SQLi/` resolves to "4", and a stray file resolves
to the `None` failure value. -/
theorem C7_node_resolution_witness :
    (get_node_id_from_file envNodes (freshSession [])
        [str "Proj", str "Content Blocks", str "intro.textile"]).2
      = Except.ok (some (str "9"))
    ∧ (get_node_id_from_file envNodes (freshSession [])
        [str "Proj", str "Nodes", str "WebServer", str "Evidences", str "SQLi",
          str "E1.textile"]).2
      = Except.ok (some (str "4"))
    ∧ (get_node_id_from_file envNodes (freshSession []) [str "Proj", str "readme.md"]).2
      = Except.ok none :=
  ⟨C7_node_resolution.1 envNodes (freshSession [])
      [str "Proj", str "Content Blocks", str "intro.textile"]
      { id := 10, label := str "Uploaded files" } rfl (by decide) (by decide),
   C7_node_resolution.2.1 envNodes (freshSession [])
      [str "Proj", str "Nodes", str "WebServer", str "Evidences", str "SQLi",
        str "E1.textile"]
      { id := 4, label := str "WebServer" } rfl (by decide) (by decide) (by decide),
   C7_node_resolution.2.2 envNodes (freshSession []) [str "Proj", str "readme.md"]
      (by decide) (by decide)⟩

/-- C9: if the cached node list has no node labelled "Uploaded files", then
resolving a path directly under `Content Blocks/` raises (`None['id']` is a
`TypeError`) instead of returning the graceful `None`; and the graceful
`None` is returned only for paths matching neither the content-block nor the
evidence shape. -/
theorem C9_missing_uploaded_files_node_raises :
    (∀ (env : ApiEnv) (s : Session) (p : List (List Char)),
      s.dradis_nodes = [] →
      get_item_from_dict_list env.nodes (fun nd => nd.label) (str "Uploaded files") = none →
      pathNameOf (pathParent p) = str "Content Blocks" →
      (get_node_id_from_file env s p).2 = Except.error PyErr.typeError)
    ∧ (∀ (env : ApiEnv) (s : Session) (p : List (List Char)),
      (get_node_id_from_file env s p).2 = Except.ok none →
      pathNameOf (pathParent p) ≠ str "Content Blocks"
        ∧ pathNameOf (pathParent (pathParent p)) ≠ str "Evidences") := by
  constructor
  · intro env s p hs hnone hcb
    unfold get_node_id_from_file
    have hfetch : (fetchNodes env s).2 = env.nodes := by
      rw [fetchNodes, if_pos (by simp [hs])]
    dsimp only
    rw [hfetch, if_pos hcb, hnone]
  · intro env s p h
    unfold get_node_id_from_file at h
    dsimp only at h
    by_cases hcb : pathNameOf (pathParent p) = str "Content Blocks"
    · rw [if_pos hcb] at h
      cases hf : get_item_from_dict_list (fetchNodes env s).2 (fun nd => nd.label)
          (str "Uploaded files") with
      | none => rw [hf] at h; exact absurd h (by simp)
      | some n => rw [hf] at h; exact absurd h (by simp)
    · rw [if_neg hcb] at h
      by_cases hev : pathNameOf (pathParent (pathParent p)) = str "Evidences"
      · rw [if_pos hev] at h
        cases hf : get_item_from_dict_list (fetchNodes env s).2 (fun nd => nd.label)
            (pathNameOf (pathParent (pathParent (pathParent p)))) with
        | none => rw [hf] at h; exact absurd h (by simp)
        | some n => rw [hf] at h; exact absurd h (by simp)
      · exact ⟨hcb, hev⟩

/-- C9, witness: against a remote node list with no "Uploaded files" node, a
content-block path raises `TypeError`, and a graceful `None` implies the path
matched neither shape. -/
theorem C9_missing_uploaded_files_node_raises_witness :
    (get_node_id_from_file envEmpty (freshSession [])
        [str "Proj", str "Content Blocks", str "intro.textile"]).2
      = Except.error PyErr.typeError
    ∧ (pathNameOf (pathParent [str "Proj", str "readme.md"]) ≠ str "Content Blocks"
        ∧ pathNameOf (pathParent (pathParent [str "Proj", str "readme.md"]))
          ≠ str "Evidences") :=
  ⟨C9_missing_uploaded_files_node_raises.1 envEmpty (freshSession [])
      [str "Proj", str "Content Blocks", str "intro.textile"] rfl (by decide) (by decide),
   C9_missing_uploaded_files_node_raises.2 envEmpty (freshSession [])
      [str "Proj", str "readme.md"] (by decide)⟩

/-- C10: `export_document_properties` pushes each property key in lowercased
form: `configparser` case-folds option names on read, so the key sent to
`update_docprop` is the lowercase of the key as spelled in the local file,
one attempted call per key in file order, even when some keys fail remotely.
(The duplicate-freedom hypothesis is what `configparser` itself enforces on a
readable file.) -/
theorem C10_docprop_keys_lowercased (env : ApiEnv) (s : Session)
    (pairs : List (List Char × List Char))
    (hdup : (pairs.map (fun kv => pyLower kv.1)).Nodup) :
    (export_document_properties env s pairs).trace
      = s.trace ++ pairs.map (fun kv => ApiCall.updateDocprop (pyLower kv.1) kv.2) := by
  exact export_document_properties_trace env pairs s

/-- An environment where updating the `client_name` document property fails. -/
def envDocpropFails : ApiEnv :=
  { envEmpty with updateDocpropRes := fun k _ =>
      if k = (str "client_name") then Except.error () else Except.ok () }

/-- C10, witness: a file spelling its keys `Client_Name` and `REPORT_Date`
pushes `client_name` and `report_date`, in order, even though the first key's
remote update fails. -/
theorem C10_docprop_keys_lowercased_witness :
    (export_document_properties envDocpropFails (freshSession [])
        [(str "Client_Name", str "ACME"), (str "REPORT_Date", str "2022")]).trace
      = [ApiCall.updateDocprop (str "client_name") (str "ACME"),
         ApiCall.updateDocprop (str "report_date") (str "2022")] := by
  have h := C10_docprop_keys_lowercased envDocpropFails (freshSession [])
    [(str "Client_Name", str "ACME"), (str "REPORT_Date", str "2022")]
    (by decide)
  rw [h]
  decide

/-- C8, counterexample: when the remote issue list is empty, the cache keeps
the falsy `[]`, so the second `export_issue` of the same session performs a
second full `get_all_issues` fetch — refuting "never triggers a second full
list fetch". -/
theorem C8_empty_list_refetches :
    ((export_issue envEmpty (export_issue envEmpty (freshSession []) contentAlpha).1
        contentAlpha).1.trace.countP isGetAllIssuesCall) = 2
    ∧ (export_issue envEmpty (export_issue envEmpty (freshSession []) contentAlpha).1
        contentAlpha).1.trace
      = [ApiCall.getAllIssues, ApiCall.createIssue contentAlpha,
         ApiCall.getAllIssues, ApiCall.createIssue contentAlpha] := by
  refine ⟨by decide, by decide⟩

/-- C8, amended: provided the first fetch returns a non-empty list, a session
fetches each entity list at most once: across two `export_issue` calls the
trace holds at most one `get_all_issues`, and across two
`get_node_id_from_file` calls at most one `get_all_nodes`.  (When the fetched
list is empty the falsy cache check refetches, as the counterexample shows.) -/
theorem C8_cache_reused_when_nonempty (env : ApiEnv) (c1 c2 f : List Char)
    (p1 p2 : List (List Char)) (hi : env.issues ≠ []) (hn : env.nodes ≠ []) :
    ((export_issue env (export_issue env (freshSession f) c1).1 c2).1.trace.countP
        isGetAllIssuesCall) ≤ 1
    ∧ ((get_node_id_from_file env (get_node_id_from_file env (freshSession f) p1).1
        p2).1.trace.countP isGetAllNodesCall) ≤ 1 := by
  constructor
  · have h0 : issuesCachePhase env (freshSession f) := Or.inl ⟨by simp [freshSession], rfl⟩
    have h1 := export_issue_phase env hi (freshSession f) c1 h0
    have h2 := export_issue_phase env hi (export_issue env (freshSession f) c1).1 c2 h1
    rcases h2 with ⟨h2, _⟩ | ⟨h2, _⟩
    · omega
    · exact h2
  · have h0 : nodesCachePhase env (freshSession f) := Or.inl ⟨by simp [freshSession], rfl⟩
    have h1 := get_node_id_phase env hn (freshSession f) p1 h0
    have h2 := get_node_id_phase env hn (get_node_id_from_file env (freshSession f) p1).1
      p2 h1
    rcases h2 with ⟨h2, _⟩ | ⟨h2, _⟩
    · omega
    · exact h2

/-- C8, witness: in a project with one issue and two nodes, two issue exports
fetch the issue list once, and two node resolutions fetch the node list
once. -/
theorem C8_cache_reused_when_nonempty_witness :
    ((export_issue envNodes (export_issue envNodes (freshSession []) contentAlpha).1
        contentAlpha).1.trace.countP isGetAllIssuesCall) ≤ 1
    ∧ ((get_node_id_from_file envNodes
        (get_node_id_from_file envNodes (freshSession [])
          [str "Proj", str "readme.md"]).1
        [str "Proj", str "readme.md"]).1.trace.countP isGetAllNodesCall) ≤ 1 :=
  C8_cache_reused_when_nonempty envNodes contentAlpha contentAlpha []
    [str "Proj", str "readme.md"] [str "Proj", str "readme.md"]
    (by decide) (by decide)

/-- C5: one run of `handle_attachments` over any content.  Classify each
parsed reference: `attachListed` (filename already listed remotely),
`attachQueued` (not listed, file present on disk), `attachMissing` (not
listed, file absent).  Then (first conjunct) the only upload is one single
batched `create_attachment` call carrying exactly the queued files — so a
listed or missing reference triggers zero upload calls, and no call at all is
made when nothing is queued; and (second conjunct) the returned content is
the fold that rewrites every listed or queued reference to the canonical
`/pro/projects/{project}/nodes/{node}/attachments/{filename}` form and leaves
every missing reference unrewritten while still processing its siblings. -/
theorem C5_handle_attachments (env : ApiEnv) (s : Session)
    (project_id node_id content fileParent : List Char) :
    (handle_attachments env s project_id node_id content fileParent).1.trace
      = s.trace ++ [ApiCall.getAllAttachments node_id]
        ++ (if ((parseAttachAux content).filter (attachQueued env node_id fileParent)).isEmpty
            then []
            else [ApiCall.createAttachment node_id
              (((parseAttachAux content).filter (attachQueued env node_id fileParent)).map
                (fullAttachmentPath fileParent))])
    ∧ (handle_attachments env s project_id node_id content fileParent).2
      = (parseAttachAux content).foldl
          (fun c a =>
            if attachMissing env node_id fileParent a then c
            else pyReplace a.matched (canonicalRef project_id node_id a) c)
          content := by
  unfold handle_attachments
  dsimp only
  by_cases hA : (parseAttachAux content).isEmpty = true
  · rw [if_pos hA]
    have hnil : parseAttachAux content = [] := List.isEmpty_iff.mp hA
    rw [hnil]
    exact ⟨by simp, by simp⟩
  · rw [if_neg hA]
    rw [attachLoop_spec env project_id node_id fileParent (parseAttachAux content) [] [] content]
    dsimp only
    have hfiles : ([] ++ ((parseAttachAux content).filter
        (attachQueued env node_id fileParent)).map (fullAttachmentPath fileParent))
      = ((parseAttachAux content).filter (attachQueued env node_id fileParent)).map
        (fullAttachmentPath fileParent) := by simp
    constructor
    · by_cases hq : ((parseAttachAux content).filter
          (attachQueued env node_id fileParent)).isEmpty = true
      · have hq' : (((parseAttachAux content).filter
            (attachQueued env node_id fileParent)).map
              (fullAttachmentPath fileParent)).isEmpty = true := by
          rw [List.isEmpty_iff] at hq ⊢
          simp [hq]
        rw [hfiles, if_pos hq', if_pos hq]
        simp
      · have hq' : ¬ ((((parseAttachAux content).filter
            (attachQueued env node_id fileParent)).map
              (fullAttachmentPath fileParent)).isEmpty = true) := by
          rw [List.isEmpty_iff] at hq ⊢
          simpa using hq
        rw [hfiles, if_neg hq', if_neg hq]
    · rfl
/-- C3: an evidence file with no `#[EvidenceID]#` field whose issue title
exists remotely: one export performs exactly one `create_evidence` call and
rewrites the local file to its previous raw content followed by the appended
block `\n#[EvidenceID]#\n\n{id}\n` carrying the remotely assigned id; a
second export of the resulting file performs an `update_evidence` call with
that id and no create call.  (The content hypotheses — non-empty, no
embedded `#[EvidenceID]` literal, no `!` attachment markers, the id a
non-empty newline-free string — carve out the claim's scenario.) -/
theorem C3_evidence_create_then_update (env : ApiEnv)
    (project_id node_id issue_name fileParent c eid : List Char) (iss : Issue)
    (hc : c ≠ [])
    (hocc : occursIn (fieldLit (str "EvidenceID")) c = false)
    (hbc : c.contains '!' = false)
    (hbe : eid.contains '!' = false)
    (hne : eid ≠ [])
    (hnl : eid.all (fun ch => !(isNl ch)) = true)
    (hfind : get_item_from_dict_list env.issues (fun i => i.title) issue_name = some iss)
    (hcr : env.createEvidenceRes = Except.ok eid)
    (hup : env.updateEvidenceRes eid = Except.ok ()) :
    export_evidence env (freshSession c) project_id node_id issue_name fileParent
      = ({ issue_list := env.issues, dradis_nodes := [],
           fileContent := c ++ str "\n#[EvidenceID]#\n\n" ++ eid ++ str "\n",
           trace := [ApiCall.getAllIssues, ApiCall.getAllAttachments node_id,
             ApiCall.createEvidence node_id iss.id c] }, Except.ok ())
    ∧ ((export_evidence env (freshSession c) project_id node_id issue_name
        fileParent).1.trace.countP isCreateEvidenceCall) = 1
    ∧ export_evidence env
        (freshSession (c ++ str "\n#[EvidenceID]#\n\n" ++ eid ++ str "\n"))
        project_id node_id issue_name fileParent
      = ({ issue_list := env.issues, dradis_nodes := [],
           fileContent := c ++ str "\n#[EvidenceID]#\n\n" ++ eid ++ str "\n",
           trace := [ApiCall.getAllIssues, ApiCall.getAllAttachments node_id,
             ApiCall.updateEvidence node_id iss.id eid
               (c ++ str "\n#[EvidenceID]#\n\n" ++ eid ++ str "\n")] }, Except.ok ())
    ∧ ((export_evidence env
        (freshSession (c ++ str "\n#[EvidenceID]#\n\n" ++ eid ++ str "\n"))
        project_id node_id issue_name fileParent).1.trace.countP isCreateEvidenceCall)
      = 0 := by
  have h1 := export_evidence_fresh_create env project_id node_id issue_name fileParent c eid iss hc hocc hbc
    hfind hcr
  have h2 := export_evidence_cached_update env project_id node_id issue_name fileParent c eid iss hocc hbc hbe
    hne hnl hfind hup
  refine ⟨h1, ?_, h2, ?_⟩
  · rw [h1]
    simp [isCreateEvidenceCall, List.countP_cons]
  · rw [h2]
    simp [isCreateEvidenceCall, List.countP_cons]
/-- C4: an evidence file carrying an embedded `#[EvidenceID]#` field whose
`update_evidence` call raises: exactly one `create_evidence` call follows
(the trace shows the failed update attempt then the single create), and in
the rewritten local file the old id value is stripped (it occurs nowhere,
given it did not occur elsewhere) while the freshly assigned id is written in
its place (the file's `#[EvidenceID]#` field now parses to the new id). -/
theorem C4_evidence_update_failure_fallback (env : ApiEnv)
    (project_id node_id issue_name fileParent c old new : List Char) (iss : Issue)
    (hocc : occursIn (fieldLit (str "EvidenceID")) c = false)
    (hbc : c.contains '!' = false)
    (hbold : old.contains '!' = false)
    (hneo : old ≠ []) (hnlo : old.all (fun ch => !(isNl ch)) = true)
    (hnen : new ≠ []) (hnln : new.all (fun ch => !(isNl ch)) = true)
    (hfind : get_item_from_dict_list env.issues (fun i => i.title) issue_name = some iss)
    (hup : env.updateEvidenceRes old = Except.error ())
    (hcr : env.createEvidenceRes = Except.ok new)
    (hnc : occursIn old c = false)
    (hnlit : occursIn old (str "#[EvidenceID]#") = false)
    (hnnew : occursIn old new = false) :
    export_evidence env
        (freshSession (c ++ str "\n#[EvidenceID]#\n\n" ++ old ++ str "\n"))
        project_id node_id issue_name fileParent
      = ({ issue_list := env.issues, dradis_nodes := [],
           fileContent := c ++ str "\n\n" ++ str "\n#[EvidenceID]#\n\n" ++ new ++ str "\n",
           trace := [ApiCall.getAllIssues, ApiCall.getAllAttachments node_id,
             ApiCall.updateEvidence node_id iss.id old
               (c ++ str "\n#[EvidenceID]#\n\n" ++ old ++ str "\n"),
             ApiCall.createEvidence node_id iss.id
               (c ++ str "\n#[EvidenceID]#\n\n" ++ old ++ str "\n")] },
         Except.ok ())
    ∧ ((export_evidence env
        (freshSession (c ++ str "\n#[EvidenceID]#\n\n" ++ old ++ str "\n"))
        project_id node_id issue_name fileParent).1.trace.countP isCreateEvidenceCall) = 1
    ∧ fieldSearch (str "EvidenceID")
        (c ++ str "\n\n" ++ str "\n#[EvidenceID]#\n\n" ++ new ++ str "\n") = some new
    ∧ occursIn old (c ++ str "\n\n" ++ str "\n#[EvidenceID]#\n\n" ++ new ++ str "\n")
        = false := by
  have hrun := export_evidence_fallback_run env project_id node_id issue_name fileParent c old new iss hocc hbc
    hbold hneo hnlo hfind hup hcr
  refine ⟨hrun, ?_, ?_, ?_⟩
  · rw [hrun]
    simp [isCreateEvidenceCall, List.countP_cons]
  · have hassoc : c ++ str "\n\n" ++ str "\n#[EvidenceID]#\n\n" ++ new ++ str "\n"
        = (c ++ str "\n\n") ++ (str "\n#[EvidenceID]#\n\n" ++ new ++ str "\n") := by
      simp
    rw [hassoc]
    exact fieldSearch_evidence_file (occursIn_lit_pad hocc) hnen hnln
  · exact old_id_absent hneo (contains_nl_eq_false_of_all hnlo) hnc hnlit hnnew

/-- A remote project holding the issue "SQL Injection" (id 3); creating an
evidence is assigned id "42". -/
def envEvidence : ApiEnv :=
  { envEmpty with issues := [{ id := 3, title := str "SQL Injection" }] }

/-- As `envEvidence`, but updating the evidence with the stale id "7" is
rejected by the remote side. -/
def envEvidenceStale : ApiEnv :=
  { envEvidence with updateEvidenceRes := fun e =>
      if e = (str "7") then Except.error () else Except.ok () }

/-- C3, witness: a concrete first export creates the evidence once and appends
`\n#[EvidenceID]#\n\n42\n` to the file, and the second export of that file
updates by id "42" with no create. -/
theorem C3_evidence_create_then_update_witness :
    export_evidence envEvidence (freshSession (str "Evidence body")) (str "1") (str "4")
        (str "SQL Injection") (str "p")
      = ({ issue_list := envEvidence.issues, dradis_nodes := [],
           fileContent := str "Evidence body" ++ str "\n#[EvidenceID]#\n\n"
             ++ str "42" ++ str "\n",
           trace := [ApiCall.getAllIssues, ApiCall.getAllAttachments (str "4"),
             ApiCall.createEvidence (str "4") 3 (str "Evidence body")] }, Except.ok ())
    ∧ ((export_evidence envEvidence
        (freshSession (str "Evidence body" ++ str "\n#[EvidenceID]#\n\n"
          ++ str "42" ++ str "\n"))
        (str "1") (str "4") (str "SQL Injection") (str "p")).1.trace.countP
          isCreateEvidenceCall) = 0 := by
  have h := C3_evidence_create_then_update envEvidence (str "1") (str "4")
    (str "SQL Injection") (str "p") (str "Evidence body") (str "42")
    { id := 3, title := str "SQL Injection" }
    (by decide) (by decide) (by decide) (by decide) (by decide) (by decide)
    (by decide) (by decide) (by decide)
  exact ⟨h.1, h.2.2.2⟩

/-- C4, witness: a concrete file carrying stale id "7" whose update is
rejected: one create follows, the file now carries "42" in its
`#[EvidenceID]#` field and "7" occurs nowhere in it. -/
theorem C4_evidence_update_failure_fallback_witness :
    export_evidence envEvidenceStale
        (freshSession (str "Body" ++ str "\n#[EvidenceID]#\n\n" ++ str "7" ++ str "\n"))
        (str "1") (str "4") (str "SQL Injection") (str "p")
      = ({ issue_list := envEvidenceStale.issues, dradis_nodes := [],
           fileContent := str "Body" ++ str "\n\n" ++ str "\n#[EvidenceID]#\n\n"
             ++ str "42" ++ str "\n",
           trace := [ApiCall.getAllIssues, ApiCall.getAllAttachments (str "4"),
             ApiCall.updateEvidence (str "4") 3 (str "7")
               (str "Body" ++ str "\n#[EvidenceID]#\n\n" ++ str "7" ++ str "\n"),
             ApiCall.createEvidence (str "4") 3
               (str "Body" ++ str "\n#[EvidenceID]#\n\n" ++ str "7" ++ str "\n")] },
         Except.ok ())
    ∧ fieldSearch (str "EvidenceID")
        (str "Body" ++ str "\n\n" ++ str "\n#[EvidenceID]#\n\n" ++ str "42" ++ str "\n")
      = some (str "42")
    ∧ occursIn (str "7")
        (str "Body" ++ str "\n\n" ++ str "\n#[EvidenceID]#\n\n" ++ str "42" ++ str "\n")
      = false := by
  have h := C4_evidence_update_failure_fallback envEvidenceStale (str "1") (str "4")
    (str "SQL Injection") (str "p") (str "Body") (str "7") (str "42")
    { id := 3, title := str "SQL Injection" }
    (by decide) (by decide) (by decide) (by decide) (by decide) (by decide) (by decide)
    (by decide) (by decide) (by decide) (by decide) (by decide) (by decide)
  exact ⟨h.1, h.2.2.1, h.2.2.2⟩
